import Mathlib

/-!
Verification of the VirtualXT emulator core against its specification.

The development shallowly embeds two peripheral devices of the repository:
the CGA video adapter (`package cga`) and the interactive debugger
(`package debug`).  Machine bytes, ports and addresses are modelled as
`Nat`; Go's `uint32` pointer subtraction and bit masking are made explicit
with `% 2^32` and `&&&`.  Wall-clock timestamps (`time.Now().UnixNano()`,
Go `int64`) are passed as explicit `Int` arguments; Go's truncating
`int64` division and remainder are `Int.tdiv` and `Int.tmod`.
-/

namespace VirtualXT

/-- Modelled from the spec: `memory.NewPointer` (package `memory`, not under
`src/`): a 20-bit linear address built from a `(segment, offset)` pair via
`linear = (segment << 4) + offset`, with wrap at `2^20`. -/
def NewPointer (seg off : Nat) : Nat :=
  (seg * 16 + off) % 0x100000

/-- Tags for the devices that can own a byte of the memory bus in this
development.  `openBus` is the default owner of unmapped addresses. -/
inductive Owner where
  | openBus
  | cga
  | dbg
deriving DecidableEq, Repr

/-- Modelled from the spec: `processor.InstallMemoryDevice` (processor
package, not under `src/`): "`install_memory_device` overwrites entries in
the requested inclusive range"; the bus is a length-2^20 mapping from byte
address to device and a read of `a` after `install_memory_device(dev,
start, end)` with `start ≤ a ≤ end` routes to `dev`. -/
def InstallMemoryDevice (bus : Nat → Owner) (dev : Owner) (lo hi : Nat) :
    Nat → Owner :=
  fun a => if lo ≤ a ∧ a ≤ hi then dev else bus a

/-- The bus before any install: every address is owned by the open bus. -/
def openBusMap : Nat → Owner := fun _ => Owner.openBus

namespace CGA

/-- `const memorySize = 0x4000` from the cga package. -/
def memorySize : Nat := 0x4000

/-- `const memoryBase = 0xB8000` from the cga package. -/
def memoryBase : Nat := 0xB8000

/-- `const scanlineTiming = 31469` from the cga package. -/
def scanlineTiming : Int := 31469

/-- The state of the cga `Device` struct: the 16 KiB framebuffer `mem`
(as a function, always indexed through the 14-bit mask), the 256-entry CRT
register file, the CRT address latch, the mode/color/status registers,
the scanline clock, the cursor, the output surface and the two atomics. -/
structure State where
  mem : Nat → Nat
  crtReg : Nat → Nat
  crtAddr : Nat
  modeCtrlReg : Nat
  colorCtrlReg : Nat
  statusReg : Nat
  lastScanline : Int
  currentScanline : Int
  cursorVisible : Bool
  cursorPosition : Nat
  surface : Nat → Nat
  dirtyMemory : Nat
  atomicCycleCounter : Nat

/-- The framebuffer index `(addr - memoryBase) & (memorySize - 1)` where
`memory.Pointer` is `uint32`, so the subtraction wraps modulo `2^32`. -/
def memIndex (addr : Nat) : Nat :=
  ((addr + 0x100000000 - memoryBase) % 0x100000000) &&& (memorySize - 1)

/-- `func (m *Device) ReadByte(addr memory.Pointer) byte` of the cga
package: `return m.mem[(addr-memoryBase)&(memorySize-1)]`. -/
def ReadByte (s : State) (addr : Nat) : Nat :=
  s.mem (memIndex addr)

/-- `func (m *Device) WriteByte(addr memory.Pointer, data byte)` of the
cga package: sets the dirty flag and stores at the masked index. -/
def WriteByte (s : State) (addr data : Nat) : State :=
  { s with
    dirtyMemory := 1
    mem := fun i => if i = memIndex addr then data else s.mem i }

/-- `func (m *Device) In(port uint16) byte` of the cga package, returning
the read byte together with the successor state (reading `0x3DA` clears
the low bit of the stored status register as a latch). -/
def In (s : State) (port : Nat) : Nat × State :=
  if port = 0x3D1 ∨ port = 0x3D3 ∨ port = 0x3D5 ∨ port = 0x3D7 then
    (s.crtReg s.crtAddr, s)
  else if port = 0x3DA then
    (s.statusReg, { s with statusReg := s.statusReg &&& 0xFE })
  else if port = 0x3D9 then
    (s.colorCtrlReg, s)
  else
    (0, s)

/-- `func (m *Device) Out(port uint16, data byte)` of the cga package. -/
def Out (s : State) (port data : Nat) : State :=
  let s1 := { s with dirtyMemory := 1 }
  if port = 0x3D0 ∨ port = 0x3D2 ∨ port = 0x3D4 ∨ port = 0x3D6 then
    { s1 with crtAddr := data }
  else if port = 0x3D1 ∨ port = 0x3D3 ∨ port = 0x3D5 ∨ port = 0x3D7 then
    let s2 := { s1 with
      crtReg := fun i => if i = s1.crtAddr then data else s1.crtReg i }
    if s1.crtAddr = 0xA then
      { s2 with cursorVisible := data &&& 0x20 = 0 }
    else if s1.crtAddr = 0xE then
      { s2 with
        cursorPosition := (s2.cursorPosition &&& 0x00FF) ||| (data % 0x100) <<< 8 }
    else if s1.crtAddr = 0xF then
      { s2 with cursorPosition := (s2.cursorPosition &&& 0xFF00) ||| data % 0x100 }
    else
      s2
  else if port = 0x3D8 then
    { s1 with modeCtrlReg := data }
  else if port = 0x3D9 then
    { s1 with colorCtrlReg := data }
  else
    s1

/-- `func (m *Device) Reset()` of the cga package; the current wall-clock
timestamp is passed explicitly as `now`. -/
def Reset (s : State) (now : Int) : State :=
  { s with
    lastScanline := now
    currentScanline := 0
    colorCtrlReg := 0x20
    modeCtrlReg := 1
    statusReg := 0
    cursorVisible := true
    cursorPosition := 0 }

/-- `func (m *Device) Step(cycles int) error` of the cga package; the
current wall-clock timestamp is passed explicitly as `now`.  Go's `int64`
division and remainder truncate toward zero, hence `tdiv`/`tmod`. -/
def Step (s : State) (cycles : Nat) (now : Int) : State :=
  let s1 := { s with atomicCycleCounter := s.atomicCycleCounter + cycles }
  let d : Int := now - s1.lastScanline
  let scanlines : Int := d.tdiv scanlineTiming
  if scanlines > 0 then
    let off : Int := d.tmod scanlineTiming
    let cur : Int := (s1.currentScanline + scanlines).tmod 525
    { s1 with
      lastScanline := now - off
      currentScanline := cur
      statusReg := (if cur > 479 then 8 else 0) ||| 1 }
  else
    s1

/-- The bus after the cga `Install`:
`p.InstallMemoryDevice(m, memoryBase, memoryBase+memorySize*2)`. -/
def installBus : Nat → Owner :=
  InstallMemoryDevice openBusMap Owner.cga memoryBase (memoryBase + memorySize * 2)

end CGA

/-- A concrete all-zero CGA state, used to instantiate witnesses. -/
def zeroCGAState : CGA.State where
  mem := fun _ => 0
  crtReg := fun _ => 0
  crtAddr := 0
  modeCtrlReg := 0
  colorCtrlReg := 0
  statusReg := 0
  lastScanline := 0
  currentScanline := 0
  cursorVisible := false
  cursorPosition := 0
  surface := fun _ => 0
  dirtyMemory := 0
  atomicCycleCounter := 0

/-- The decode mask sends `memoryBase + k` to framebuffer cell `k` for
`k < 0x4000`. -/
theorem CGA.memIndex_base (k : Nat) (hk : k < 0x4000) :
    CGA.memIndex (0xB8000 + k) = k := by
  unfold CGA.memIndex CGA.memoryBase CGA.memorySize
  rw [show (0xB8000 + k + 0x100000000 - 0xB8000 : Nat) = k + 0x100000000 from by
    omega]
  rw [Nat.add_mod_right, Nat.mod_eq_of_lt (by omega)]
  rw [show (0x4000 - 1 : Nat) = 2 ^ 14 - 1 from by norm_num]
  rw [Nat.and_pow_two_sub_one_eq_mod, Nat.mod_eq_of_lt (by omega)]

/-- The decode mask also sends the aliased address `0xBC000 + k` to
framebuffer cell `k` for `k < 0x4000`. -/
theorem CGA.memIndex_alias (k : Nat) (hk : k < 0x4000) :
    CGA.memIndex (0xBC000 + k) = k := by
  unfold CGA.memIndex CGA.memoryBase CGA.memorySize
  rw [show (0xBC000 + k + 0x100000000 - 0xB8000 : Nat)
      = (k + 0x4000) + 0x100000000 from by omega]
  rw [Nat.add_mod_right, Nat.mod_eq_of_lt (by omega)]
  rw [show (0x4000 - 1 : Nat) = 2 ^ 14 - 1 from by norm_num]
  rw [Nat.and_pow_two_sub_one_eq_mod]
  rw [show (2 ^ 14 : Nat) = 0x4000 from by norm_num]
  rw [Nat.add_mod_right, Nat.mod_eq_of_lt (by omega)]

/-- Claim C1: for every `k` in `[0, 0x4000)` and every byte `d`, writing
`d` through the CGA `WriteByte` at `0xB8000 + k` and then reading through
`ReadByte` at `0xBC000 + k` returns `d`, and symmetrically a write at
`0xBC000 + k` is read back at `0xB8000 + k`, because the address decode
masks the offset to 14 bits. -/
theorem cga_framebuffer_aliasing (s : CGA.State) (k d : Nat)
    (hk : k < 0x4000) :
    CGA.ReadByte (CGA.WriteByte s (0xB8000 + k) d) (0xBC000 + k) = d ∧
    CGA.ReadByte (CGA.WriteByte s (0xBC000 + k) d) (0xB8000 + k) = d := by
  unfold CGA.ReadByte CGA.WriteByte
  simp only [CGA.memIndex_base k hk, CGA.memIndex_alias k hk, if_pos rfl]
  exact ⟨rfl, rfl⟩

/-- Witness for claim C1 at `k = 5`, `d = 0x5A`. -/
theorem cga_framebuffer_aliasing_witness :
    5 < 0x4000 ∧
    (CGA.ReadByte (CGA.WriteByte zeroCGAState (0xB8000 + 5) 0x5A) (0xBC000 + 5)
        = 0x5A ∧
     CGA.ReadByte (CGA.WriteByte zeroCGAState (0xBC000 + 5) 0x5A) (0xB8000 + 5)
        = 0x5A) :=
  ⟨by norm_num, cga_framebuffer_aliasing zeroCGAState 5 0x5A (by norm_num)⟩

/-- Claim C2, evaluated at the failing input: the cga `Install` passes
`memoryBase + memorySize*2 = 0xC0000` as the end of the claimed range and
the install range is inclusive, so address `0xC0000` IS routed to the CGA
device; the last owned address is `0xC0000`, not `0xBFFFF` as claimed
(addresses strictly above `0xC0000` are indeed not routed to it). -/
theorem cga_install_off_by_one :
    CGA.installBus 0xBFFFF = Owner.cga ∧
    CGA.installBus 0xC0000 = Owner.cga ∧
    CGA.installBus 0xC0001 = Owner.openBus := by
  unfold CGA.installBus InstallMemoryDevice openBusMap CGA.memoryBase CGA.memorySize
  norm_num

/-- Reading `In 0x3DA` hits the status-register branch of the port
dispatch. -/
theorem CGA.In_3DA (s : CGA.State) :
    CGA.In s 0x3DA = (s.statusReg, { s with statusReg := s.statusReg &&& 0xFE }) := by
  unfold CGA.In
  rw [if_neg (by norm_num), if_pos rfl]

set_option maxRecDepth 4096 in
/-- Masking a byte with `0xFE` clears bit 0 and keeps the other bits. -/
theorem and_0xFE_spec : ∀ x : Nat, x < 256 →
    (x &&& 0xFE) % 2 = 0 ∧ (x &&& 0xFE) / 2 = x / 2 := by decide

/-- Claim C6: every `In(0x3DA)` call returns the stored status register,
and afterwards bit 0 of the stored status register is 0 (its value mod 2
is 0) while all other bits are unchanged (its value div 2 is unchanged);
hence a second consecutive read yields a value with bit 0 clear. -/
theorem cga_status_latch (s : CGA.State) (h : s.statusReg < 256) :
    (CGA.In s 0x3DA).1 = s.statusReg ∧
    (CGA.In s 0x3DA).2.statusReg % 2 = 0 ∧
    (CGA.In s 0x3DA).2.statusReg / 2 = s.statusReg / 2 ∧
    (CGA.In (CGA.In s 0x3DA).2 0x3DA).1 % 2 = 0 := by
  rw [CGA.In_3DA, CGA.In_3DA]
  exact ⟨rfl, (and_0xFE_spec s.statusReg h).1, (and_0xFE_spec s.statusReg h).2,
    (and_0xFE_spec s.statusReg h).1⟩

/-- Witness for claim C6 at a concrete state with status register `9`. -/
theorem cga_status_latch_witness :
    ({ zeroCGAState with statusReg := 9 } : CGA.State).statusReg < 256 ∧
    ((CGA.In { zeroCGAState with statusReg := 9 } 0x3DA).1 = 9 ∧
     (CGA.In { zeroCGAState with statusReg := 9 } 0x3DA).2.statusReg % 2 = 0 ∧
     (CGA.In { zeroCGAState with statusReg := 9 } 0x3DA).2.statusReg / 2 = 9 / 2 ∧
     (CGA.In (CGA.In { zeroCGAState with statusReg := 9 } 0x3DA).2 0x3DA).1 % 2
       = 0) :=
  ⟨by norm_num, cga_status_latch { zeroCGAState with statusReg := 9 } (by norm_num)⟩

/-- Claim C10: `Reset` sets the color control register to `0x20`, the mode
control register to `1`, the status register to `0`, cursor-visible to
`true`, the cursor position to `0` and the scanline counter to `0`, while
leaving the framebuffer, the CRT register file, the CRT address latch and
the output surface unchanged. -/
theorem cga_reset_frame (s : CGA.State) (now : Int) :
    (CGA.Reset s now).colorCtrlReg = 0x20 ∧
    (CGA.Reset s now).modeCtrlReg = 1 ∧
    (CGA.Reset s now).statusReg = 0 ∧
    (CGA.Reset s now).cursorVisible = true ∧
    (CGA.Reset s now).cursorPosition = 0 ∧
    (CGA.Reset s now).currentScanline = 0 ∧
    (CGA.Reset s now).mem = s.mem ∧
    (CGA.Reset s now).crtReg = s.crtReg ∧
    (CGA.Reset s now).crtAddr = s.crtAddr ∧
    (CGA.Reset s now).surface = s.surface :=
  ⟨rfl, rfl, rfl, rfl, rfl, rfl, rfl, rfl, rfl, rfl⟩

/-- Claim C7: after every `Step` the scanline counter lies in `[0, 525)`;
when the elapsed time amounts to a positive number of whole scanline
periods the counter advances by that number modulo 525, and then bit 3 of
the status register is set exactly when the new counter value exceeds 479
while bit 0 is set in either case. -/
theorem cga_scanline_invariant (s : CGA.State) (cycles : Nat) (now : Int)
    (h0 : 0 ≤ s.currentScanline) (h1 : s.currentScanline < 525) :
    0 ≤ (CGA.Step s cycles now).currentScanline ∧
    (CGA.Step s cycles now).currentScanline < 525 ∧
    (0 < (now - s.lastScanline).tdiv CGA.scanlineTiming →
      (CGA.Step s cycles now).currentScanline
        = (s.currentScanline
            + (now - s.lastScanline).tdiv CGA.scanlineTiming).tmod 525 ∧
      ((CGA.Step s cycles now).statusReg.testBit 3
        ↔ 479 < (CGA.Step s cycles now).currentScanline) ∧
      (CGA.Step s cycles now).statusReg % 2 = 1) := by
  unfold CGA.Step
  dsimp only
  by_cases hpos : 0 < (now - s.lastScanline).tdiv CGA.scanlineTiming
  · have hsum : 0 ≤ s.currentScanline + (now - s.lastScanline).tdiv CGA.scanlineTiming := by
      omega
    have hmodnn : 0 ≤ (s.currentScanline
        + (now - s.lastScanline).tdiv CGA.scanlineTiming).tmod 525 :=
      Int.tmod_nonneg _ hsum
    have hmodlt : (s.currentScanline
        + (now - s.lastScanline).tdiv CGA.scanlineTiming).tmod 525 < 525 :=
      Int.tmod_lt_of_pos _ (by norm_num)
    rw [if_pos hpos]
    refine ⟨hmodnn, hmodlt, fun _ => ⟨rfl, ?_, ?_⟩⟩
    · by_cases hc : 479 < (s.currentScanline
          + (now - s.lastScanline).tdiv CGA.scanlineTiming).tmod 525
      · simp only [if_pos hc]
        exact iff_of_true (by decide) hc
      · simp only [if_neg hc]
        exact iff_of_false (by decide) hc
    · by_cases hc : 479 < (s.currentScanline
          + (now - s.lastScanline).tdiv CGA.scanlineTiming).tmod 525
      · simp only [if_pos hc]
        decide
      · simp only [if_neg hc]
        decide
  · rw [if_neg hpos]
    exact ⟨h0, h1, fun hp => absurd hp hpos⟩

/-- Witness for claim C7 at a concrete state: counter `479`, last scanline
timestamp `0`, stepped at `now = 2 * 31469`. -/
theorem cga_scanline_invariant_witness :
    0 ≤ ({ zeroCGAState with currentScanline := 479 } : CGA.State).currentScanline ∧
    ({ zeroCGAState with currentScanline := 479 } : CGA.State).currentScanline < 525 ∧
    (0 ≤ (CGA.Step { zeroCGAState with currentScanline := 479 } 4 62938).currentScanline ∧
     (CGA.Step { zeroCGAState with currentScanline := 479 } 4 62938).currentScanline < 525 ∧
     (0 < ((62938 : Int)
          - ({ zeroCGAState with currentScanline := 479 } : CGA.State).lastScanline).tdiv
            CGA.scanlineTiming →
       (CGA.Step { zeroCGAState with currentScanline := 479 } 4 62938).currentScanline
         = (({ zeroCGAState with currentScanline := 479 } : CGA.State).currentScanline
             + ((62938 : Int)
                - ({ zeroCGAState with currentScanline := 479 } : CGA.State).lastScanline).tdiv
                  CGA.scanlineTiming).tmod 525 ∧
       ((CGA.Step { zeroCGAState with currentScanline := 479 } 4 62938).statusReg.testBit 3
         ↔ 479 < (CGA.Step { zeroCGAState with currentScanline := 479 } 4 62938).currentScanline) ∧
       (CGA.Step { zeroCGAState with currentScanline := 479 } 4 62938).statusReg % 2 = 1)) :=
  ⟨by norm_num, by norm_num,
    cga_scanline_invariant { zeroCGAState with currentScanline := 479 } 4 62938
      (by norm_num) (by norm_num)⟩

namespace DebugDev

/-- The state of the debug `Device` struct together with the package-level
`debugBreak` flag and the `Debug` bit of the processor registers that
`Break`/`Continue` toggle.  The buffered history channel is a FIFO list
whose head is the oldest entry. -/
structure DbgState where
  lastInstruction : Nat
  debugBreak : Bool
  rDebug : Bool
  breakOnIRET : Bool
  breakpoints : List Nat
  historyChan : List String
  numInstructionsLost : Nat
  codeOffset : Nat
deriving DecidableEq, Repr

/-- `func (m *Device) Break()`: sets `debugBreak` and `m.r.Debug`. -/
def Break (s : DbgState) : DbgState :=
  { s with debugBreak := true, rDebug := true }

/-- `func (m *Device) Continue()`: clears `debugBreak` and `m.r.Debug`. -/
def Continue (s : DbgState) : DbgState :=
  { s with debugBreak := false, rDebug := false }

/-- The checks at the top of `func (m *Device) Step(cycles int)` of the
debug package, before the REPL loop: re-assert break when the `Debug`
register bit is set; re-arm break when a stored `lastInstruction` differs
from the current linear `CS:IP`; re-arm break on an `IRET` opcode fetch
when `breakOnIRET` is latched; and scan the breakpoint list against the
16-bit `IP` only.  (The wall-clock statistics update and the interrupt
signal channel, which only affect logging, are not modelled.) -/
def stepChecks (s : DbgState) (cs ip op : Nat) : DbgState :=
  let s1 := if s.rDebug then { s with debugBreak := true } else s
  let p := NewPointer cs ip
  let s2 := if 0 < s1.lastInstruction ∧ s1.lastInstruction ≠ p then
      { (Break s1) with lastInstruction := 0 }
    else s1
  let s3 := if s2.breakOnIRET ∧ op = 0xCF then
      { (Break s2) with breakOnIRET := false }
    else s2
  if ip ∈ s3.breakpoints then Break s3 else s3

/-- `func (m *Device) pushHistory(inst string)`: a non-blocking send to
the 128-capacity history channel; when the channel is full the oldest
entry is received and dropped, the lost counter is incremented, and the
new entry is sent. -/
def pushHistory (s : DbgState) (inst : String) : DbgState :=
  if s.historyChan.length < 128 then
    { s with historyChan := s.historyChan ++ [inst] }
  else
    match s.historyChan with
    | [] => { s with historyChan := [inst] }
    | _ :: rest =>
      { s with
        historyChan := rest ++ [inst]
        numInstructionsLost := s.numInstructionsLost + 1 }

/-- The loop body of `func (m *Device) showHistory(num int)`: receive the
oldest entry, log it, and send it back; the channel length is unchanged by
each iteration.  Returns the logged entries and the final channel. -/
def showHistoryGo : Nat → List String → List String × List String
  | 0, r => ([], r)
  | _ + 1, [] => ([], [])
  | k + 1, x :: xs =>
    let q := showHistoryGo k (xs ++ [x])
    (x :: q.1, q.2)

/-- `func (m *Device) showHistory(num int)`: the loop runs while
`i < len(m.historyChan) && i < num`, and the length is invariant. -/
def showHistory (num : Nat) (r : List String) : List String × List String :=
  showHistoryGo (min num r.length) r

/-- One REPL command dispatch from the `switch` in `Step` of the debug
package, restricted to the commands that change device state (`c`, blank,
`s`, `i`, `t`, `ct`, `cb`); the print-only commands (`q`, `r`, `v`, `@`,
`b`, `p`, `m ...`) and the argument-parsing commands not needed by any
claim leave the state unchanged here, like the `default` branch.  Returns
the successor state and the history entries displayed by `t`. -/
def command (s : DbgState) (cs ip : Nat) (ln : String) : DbgState × List String :=
  if ln = "c" then
    (Continue s, [])
  else if ln = "" ∨ ln = "s" then
    ({ (Continue s) with lastInstruction := NewPointer cs ip }, [])
  else if ln = "i" then
    ({ (Continue s) with breakOnIRET := true }, [])
  else if ln = "t" then
    let q := showHistory 16 s.historyChan
    ({ s with historyChan := q.2 }, q.1)
  else if ln = "ct" then
    ({ s with
       historyChan := []
       numInstructionsLost := s.numInstructionsLost + s.historyChan.length }, [])
  else if ln = "cb" then
    ({ s with breakpoints := [] }, [])
  else
    (s, [])

/-- The `memory.Memory` interface: a device owning bytes of the bus, over
an abstract world state `σ`. -/
structure MemDevice (σ : Type) where
  readB : σ → Nat → Nat
  writeB : σ → Nat → Nat → σ

/-- `func (m *Device) ReadByte(addr memory.Pointer) byte` of the debug
package: `return m.memPeripherals[addr].ReadByte(addr)`, where
`memPeripherals` is the owner table recorded at install time. -/
def ReadByte {σ : Type} (mp : Nat → MemDevice σ) (w : σ) (addr : Nat) : Nat :=
  (mp addr).readB w addr

/-- `func (m *Device) WriteByte(addr memory.Pointer, data byte)` of the
debug package: forward to the recorded owner, then break on a nonzero
write to `memory.NewPointer(0x40, 0x15)`. -/
def WriteByte {σ : Type} (mp : Nat → MemDevice σ) (s : DbgState) (w : σ)
    (addr data : Nat) : DbgState × σ :=
  let w2 := (mp addr).writeB w addr data
  if data ≠ 0 ∧ addr = NewPointer 0x40 0x15 then
    (Break s, w2)
  else
    (s, w2)

end DebugDev

/-- A concrete quiescent debugger state, used to instantiate witnesses and
counterexamples. -/
def dbg0 : DebugDev.DbgState where
  lastInstruction := 0
  debugBreak := false
  rDebug := false
  breakOnIRET := false
  breakpoints := []
  historyChan := []
  numInstructionsLost := 0
  codeOffset := 0

/-- Claim C8: for every address and byte, the debugger's `WriteByte`
forwards the write to the owner recorded for the address at install time
and asserts break exactly when the data is nonzero and the address is the
linear address of segment `0x40`, offset `0x15`; `ReadByte` returns what
the recorded owner returns. -/
theorem debug_write_rule {σ : Type} (mp : Nat → DebugDev.MemDevice σ)
    (s : DebugDev.DbgState) (w : σ) (addr data : Nat) :
    DebugDev.ReadByte mp w addr = (mp addr).readB w addr ∧
    (DebugDev.WriteByte mp s w addr data).2 = (mp addr).writeB w addr data ∧
    ((DebugDev.WriteByte mp s w addr data).1.debugBreak = true ↔
      (s.debugBreak = true ∨ (data ≠ 0 ∧ addr = NewPointer 0x40 0x15))) := by
  refine ⟨rfl, ?_, ?_⟩ <;> unfold DebugDev.WriteByte <;>
    by_cases h : data ≠ 0 ∧ addr = NewPointer 0x40 0x15
  · rw [if_pos h]
  · rw [if_neg h]
  · rw [if_pos h]
    simp [DebugDev.Break, h]
  · rw [if_neg h]
    simp [h]

/-- The breakpoint list survives the earlier checks of `stepChecks`
unchanged. -/
theorem stepChecks_debugBreak_of_mem (s : DebugDev.DbgState) (cs ip op : Nat)
    (h : ip ∈ s.breakpoints) :
    (DebugDev.stepChecks s cs ip op).debugBreak = true := by
  unfold DebugDev.stepChecks
  dsimp only
  split_ifs <;> simp_all [DebugDev.Break]

/-- Claim C4: breakpoint matching uses only the 16-bit `IP`: whenever the
registers' `IP` is in the breakpoint list, `stepChecks` asserts break, for
every value of `CS` — in particular two locations with equal `IP` and
different `CS` values both trigger. -/
theorem breakpoint_matches_ip_only (s : DebugDev.DbgState)
    (cs1 cs2 ip op : Nat) (h : ip ∈ s.breakpoints) :
    (DebugDev.stepChecks s cs1 ip op).debugBreak = true ∧
    (DebugDev.stepChecks s cs2 ip op).debugBreak = true :=
  ⟨stepChecks_debugBreak_of_mem s cs1 ip op h,
   stepChecks_debugBreak_of_mem s cs2 ip op h⟩

/-- Witness for claim C4: a breakpoint at offset `0x1234`, reached with
`CS = 0xF000` and with `CS = 0x7C00`. -/
theorem breakpoint_matches_ip_only_witness :
    0x1234 ∈ ({ dbg0 with breakpoints := [0x1234] } : DebugDev.DbgState).breakpoints ∧
    ((DebugDev.stepChecks { dbg0 with breakpoints := [0x1234] } 0xF000 0x1234 0x90).debugBreak
       = true ∧
     (DebugDev.stepChecks { dbg0 with breakpoints := [0x1234] } 0x7C00 0x1234 0x90).debugBreak
       = true) :=
  ⟨by decide,
   breakpoint_matches_ip_only { dbg0 with breakpoints := [0x1234] }
     0xF000 0x7C00 0x1234 0x90 (by decide)⟩

/-- Claim C9: the history ring holds at most 128 entries; a push onto a
full ring drops exactly the oldest entry and increments the lost counter
by one, a push onto a non-full ring appends and leaves the counter
unchanged. -/
theorem push_history_bound (s : DebugDev.DbgState) (inst : String)
    (h : s.historyChan.length ≤ 128) :
    (DebugDev.pushHistory s inst).historyChan.length ≤ 128 ∧
    (s.historyChan.length = 128 →
      (DebugDev.pushHistory s inst).historyChan = s.historyChan.tail ++ [inst] ∧
      (DebugDev.pushHistory s inst).numInstructionsLost
        = s.numInstructionsLost + 1) ∧
    (s.historyChan.length < 128 →
      (DebugDev.pushHistory s inst).historyChan = s.historyChan ++ [inst] ∧
      (DebugDev.pushHistory s inst).numInstructionsLost
        = s.numInstructionsLost) := by
  unfold DebugDev.pushHistory
  by_cases hlt : s.historyChan.length < 128
  · rw [if_pos hlt]
    refine ⟨by simp; omega, fun he => absurd he (by omega), fun _ => ⟨rfl, rfl⟩⟩
  · have he : s.historyChan.length = 128 := by omega
    rw [if_neg hlt]
    cases hc : s.historyChan with
    | nil => rw [hc] at he; simp at he
    | cons x xs =>
      rw [hc] at he
      simp only [List.length_cons] at he
      refine ⟨?_, fun _ => ⟨rfl, rfl⟩, fun hlt2 => ?_⟩
      · show (xs ++ [inst]).length ≤ 128
        simp
        omega
      · simp only [List.length_cons] at hlt2
        exact absurd hlt2 (by omega)

/-- Witness for claim C9 on a full 128-entry ring (the entries are the
numerals `0`–`127` rendered as strings) and on the empty ring. -/
theorem push_history_bound_witness :
    (({ dbg0 with historyChan := (List.range 128).map toString } :
        DebugDev.DbgState).historyChan.length ≤ 128 ∧
      ((DebugDev.pushHistory
          { dbg0 with historyChan := (List.range 128).map toString }
          "new").historyChan.length ≤ 128 ∧
       (({ dbg0 with historyChan := (List.range 128).map toString } :
           DebugDev.DbgState).historyChan.length = 128 →
         (DebugDev.pushHistory
             { dbg0 with historyChan := (List.range 128).map toString }
             "new").historyChan
           = ({ dbg0 with historyChan := (List.range 128).map toString } :
               DebugDev.DbgState).historyChan.tail ++ ["new"] ∧
         (DebugDev.pushHistory
             { dbg0 with historyChan := (List.range 128).map toString }
             "new").numInstructionsLost
           = ({ dbg0 with historyChan := (List.range 128).map toString } :
               DebugDev.DbgState).numInstructionsLost + 1) ∧
       (({ dbg0 with historyChan := (List.range 128).map toString } :
           DebugDev.DbgState).historyChan.length < 128 →
         (DebugDev.pushHistory
             { dbg0 with historyChan := (List.range 128).map toString }
             "new").historyChan
           = ({ dbg0 with historyChan := (List.range 128).map toString } :
               DebugDev.DbgState).historyChan ++ ["new"] ∧
         (DebugDev.pushHistory
             { dbg0 with historyChan := (List.range 128).map toString }
             "new").numInstructionsLost
           = ({ dbg0 with historyChan := (List.range 128).map toString } :
               DebugDev.DbgState).numInstructionsLost))) :=
  ⟨by simp,
   push_history_bound { dbg0 with historyChan := (List.range 128).map toString }
     "new" (by simp)⟩

/-- Counterexample to claim C3 as stated: at `CS:IP = 0:0` the `s` command
stores `lastInstruction = 0`, and because the re-arm check requires
`lastInstruction > 0`, the next `Step` at a different `CS:IP` does NOT
re-assert break. -/
theorem single_step_rearm_cex :
    (DebugDev.command { dbg0 with debugBreak := true, rDebug := true }
        0 0 "s").1.lastInstruction = 0 ∧
    (DebugDev.command { dbg0 with debugBreak := true, rDebug := true }
        0 0 "s").1.debugBreak = false ∧
    NewPointer 0 1 ≠ NewPointer 0 0 ∧
    (DebugDev.stepChecks
        (DebugDev.command { dbg0 with debugBreak := true, rDebug := true }
          0 0 "s").1 0 1 0x90).debugBreak = false := by
  refine ⟨rfl, rfl, by decide, rfl⟩

/-- The breakpoint scan at the end of `stepChecks` can only assert break;
an already-asserted break and a cleared `lastInstruction` survive it. -/
theorem break_after_scan (s3 : DebugDev.DbgState) (ip : Nat)
    (hb : s3.debugBreak = true) (hl : s3.lastInstruction = 0) :
    (if ip ∈ s3.breakpoints then DebugDev.Break s3 else s3).debugBreak = true ∧
    (if ip ∈ s3.breakpoints then DebugDev.Break s3 else s3).lastInstruction
      = 0 := by
  by_cases hm : ip ∈ s3.breakpoints
  · rw [if_pos hm]
    exact ⟨rfl, hl⟩
  · rw [if_neg hm]
    exact ⟨hb, hl⟩

/-- The `breakOnIRET` stage of `stepChecks` can only assert break; an
already-asserted break and a cleared `lastInstruction` survive it. -/
theorem break_after_iret (s2 : DebugDev.DbgState) (op : Nat)
    (hb : s2.debugBreak = true) (hl : s2.lastInstruction = 0) :
    (if s2.breakOnIRET ∧ op = 0xCF then
        { (DebugDev.Break s2) with breakOnIRET := false }
      else s2).debugBreak = true ∧
    (if s2.breakOnIRET ∧ op = 0xCF then
        { (DebugDev.Break s2) with breakOnIRET := false }
      else s2).lastInstruction = 0 := by
  by_cases hc : s2.breakOnIRET ∧ op = 0xCF
  · rw [if_pos hc]
    exact ⟨rfl, hl⟩
  · rw [if_neg hc]
    exact ⟨hb, hl⟩

/-- When a nonzero `lastInstruction` differs from the current linear
`CS:IP`, `stepChecks` asserts break and clears `lastInstruction`. -/
theorem stepChecks_rearm (s : DebugDev.DbgState) (cs ip op : Nat)
    (h1 : 0 < s.lastInstruction)
    (h2 : s.lastInstruction ≠ NewPointer cs ip) :
    (DebugDev.stepChecks s cs ip op).debugBreak = true ∧
    (DebugDev.stepChecks s cs ip op).lastInstruction = 0 := by
  unfold DebugDev.stepChecks
  dsimp only
  have e1 : (if s.rDebug then { s with debugBreak := true } else s).lastInstruction
      = s.lastInstruction := by split <;> rfl
  have hc2 : 0 < (if s.rDebug then { s with debugBreak := true }
        else s).lastInstruction ∧
      (if s.rDebug then { s with debugBreak := true }
        else s).lastInstruction ≠ NewPointer cs ip := by
    rw [e1]
    exact ⟨h1, h2⟩
  rw [if_pos hc2]
  exact break_after_scan _ ip (break_after_iret _ op rfl rfl).1
    (break_after_iret _ op rfl rfl).2

/-- Claim C3, amended: the blank command behaves as `s`; the `s` command
stores the current linear `CS:IP` as `lastInstruction` and clears break;
at the top of the next `Step`, PROVIDED the stored `lastInstruction` is
nonzero, a current linear `CS:IP` different from it re-asserts break and
clears `lastInstruction`. -/
theorem single_step_rearm (s : DebugDev.DbgState) (cs ip cs2 ip2 op : Nat) :
    (DebugDev.command s cs ip "").1 = (DebugDev.command s cs ip "s").1 ∧
    (DebugDev.command s cs ip "s").1.lastInstruction = NewPointer cs ip ∧
    (DebugDev.command s cs ip "s").1.debugBreak = false ∧
    (0 < NewPointer cs ip → NewPointer cs2 ip2 ≠ NewPointer cs ip →
      (DebugDev.stepChecks (DebugDev.command s cs ip "s").1
          cs2 ip2 op).debugBreak = true ∧
      (DebugDev.stepChecks (DebugDev.command s cs ip "s").1
          cs2 ip2 op).lastInstruction = 0) := by
  refine ⟨rfl, rfl, rfl, fun hpos hne =>
    stepChecks_rearm _ cs2 ip2 op hpos (Ne.symm hne)⟩

/-- Witness for (the amended) claim C3: stepping from `CS:IP = 0x12:0x34`
(linear `0x154`), then reaching `CS:IP = 0:0`. -/
theorem single_step_rearm_witness :
    0 < NewPointer 0x12 0x34 ∧
    NewPointer 0 0 ≠ NewPointer 0x12 0x34 ∧
    (DebugDev.stepChecks (DebugDev.command dbg0 0x12 0x34 "s").1
        0 0 0x90).debugBreak = true ∧
    (DebugDev.stepChecks (DebugDev.command dbg0 0x12 0x34 "s").1
        0 0 0x90).lastInstruction = 0 :=
  ⟨by decide, by decide,
   ((single_step_rearm dbg0 0x12 0x34 0 0 0x90).2.2.2 (by decide) (by decide)).1,
   ((single_step_rearm dbg0 0x12 0x34 0 0 0x90).2.2.2 (by decide) (by decide)).2⟩

/-- A concrete 17-entry history ring, oldest entry first. -/
def ring17 : List String :=
  ["h00", "h01", "h02", "h03", "h04", "h05", "h06", "h07", "h08",
   "h09", "h10", "h11", "h12", "h13", "h14", "h15", "h16"]

/-- Counterexample to claim C5 as stated: on a 17-entry ring the `t`
command displays the 16 OLDEST entries (the FIFO channel is received from
the front), not the 16 most recently pushed ones, and afterwards the ring
is rotated by 16, not unchanged. -/
theorem history_t_cex :
    16 < ring17.length ∧
    (DebugDev.command
        { dbg0 with debugBreak := true, rDebug := true, historyChan := ring17 }
        0 0 "t").2
      ≠ ring17.drop (ring17.length - 16) ∧
    (DebugDev.command
        { dbg0 with debugBreak := true, rDebug := true, historyChan := ring17 }
        0 0 "t").1.historyChan
      ≠ ring17 := by
  refine ⟨by decide, by decide, by decide⟩

/-- The `showHistory` loop pops the first `k` entries off the FIFO front,
logging each and sending it back, so it displays the `k` oldest entries
and rotates them to the back of the channel. -/
theorem showHistoryGo_spec : ∀ (k : Nat) (r : List String), k ≤ r.length →
    DebugDev.showHistoryGo k r = (r.take k, r.drop k ++ r.take k) := by
  intro k
  induction k with
  | zero => intro r _; simp [DebugDev.showHistoryGo]
  | succ n ih =>
    intro r h
    cases r with
    | nil => simp at h
    | cons x xs =>
      simp only [List.length_cons] at h
      have hnx : n ≤ xs.length := by omega
      have hn : n ≤ (xs ++ [x]).length := by simp; omega
      simp only [DebugDev.showHistoryGo]
      rw [ih (xs ++ [x]) hn]
      simp only [List.take_succ_cons, List.drop_succ_cons,
        List.take_append_of_le_length hnx, List.drop_append_of_le_length hnx]
      simp [List.append_assoc]

/-- Claim C5, amended: at a break, on a ring holding at least 16 entries,
the `t` command displays the 16 OLDEST entries of the history ring; it
preserves the multiset of ring entries but rotates the displayed 16 to the
back. -/
theorem history_t_oldest16 (s : DebugDev.DbgState) (cs ip : Nat)
    (h : 16 ≤ s.historyChan.length) :
    (DebugDev.command s cs ip "t").2 = s.historyChan.take 16 ∧
    (DebugDev.command s cs ip "t").1.historyChan
      = s.historyChan.drop 16 ++ s.historyChan.take 16 ∧
    (DebugDev.command s cs ip "t").1.historyChan.Perm s.historyChan := by
  have hcmd : DebugDev.command s cs ip "t"
      = ({ s with historyChan := (DebugDev.showHistory 16 s.historyChan).2 },
         (DebugDev.showHistory 16 s.historyChan).1) := rfl
  have hmin : min 16 s.historyChan.length = 16 := Nat.min_eq_left h
  have hsp := showHistoryGo_spec 16 s.historyChan h
  rw [hcmd]
  unfold DebugDev.showHistory
  rw [hmin, hsp]
  refine ⟨rfl, rfl, ?_⟩
  exact (List.perm_append_comm).trans (by rw [List.take_append_drop])

/-- Witness for (the amended) claim C5 on the concrete 17-entry ring. -/
theorem history_t_oldest16_witness :
    16 ≤ ring17.length ∧
    ((DebugDev.command { dbg0 with historyChan := ring17 } 0 0 "t").2
        = ring17.take 16 ∧
     (DebugDev.command { dbg0 with historyChan := ring17 } 0 0 "t").1.historyChan
        = ring17.drop 16 ++ ring17.take 16 ∧
     (DebugDev.command { dbg0 with historyChan := ring17 }
         0 0 "t").1.historyChan.Perm ring17) :=
  ⟨by decide,
   history_t_oldest16 { dbg0 with historyChan := ring17 } 0 0 (by decide)⟩

end VirtualXT
